import Mathlib

/-!
Shallow embedding of the swagger_gin type-to-schema synthesis engine
(package `swagger`, files `swagger.go` and the enum helper file).

Go runtime values only influence schema synthesis through their types
(nil pointers are replaced by zero values before recursion), so the
embedding walks a first-order description of Go types (`GoType`) against
an environment of named struct declarations (`Env`).  Go's `map[string]T`
component registry (`openapi3.Schemas`) is modelled as an association
list with in-place overwrite, and the mutually recursive reflection walk
is given a fuel parameter: `Res.fuelOut` marks fuel exhaustion, and
`Res.err` marks a Go `panic`.
-/

namespace SwaggerGin

/-- The openapi3 schema `Type` values produced by the engine. -/
inductive SType where
  | integer | number | str | boolean | object | array
deriving DecidableEq, Repr

/-- The `reflect.Kind` values the engine inspects (supported primitive
kinds plus the composite and unrepresentable kinds it dispatches on). -/
inductive RKind where
  | int | int8 | int16 | int32 | int64
  | uint | uint8 | uint16 | uint32 | uint64
  | float32 | float64 | string | bool
  | chan | func | complex64 | complex128 | uintptr
  | ptr | struct | slice | map | interface
deriving DecidableEq, Repr, Fintype

/-- Runtime values appearing in enum value lists and coercions. -/
inductive Val where
  | vInt (i : Int)
  | vStr (s : String)
  | vBool (b : Bool)
deriving DecidableEq, Repr

/-- Model of `openapi3.Schema`, restricted to the fields the engine
reads or writes: Type, Format, Min, Title, Description, Default,
Required, Enum, the `x-enum-varnames` discriminator extension,
Properties, Items and AdditionalProperties.  Properties and Items hold
`SchemaRef`s, i.e. a `$ref` string paired with an optional inline value. -/
inductive Schema where
  | mk (ty : Option SType) (format : String) (min : Option Int)
      (title : String) (descr : String) (dflt : Option String)
      (required : List String)
      (enum : List Val) (varnames : List String)
      (props : List (String × String × Option Schema))
      (items : Option (String × Option Schema))
      (apHas : Bool)
      (apSchema : Option (String × Option Schema)) : Schema

namespace Schema

def ty : Schema → Option SType
  | .mk t _ _ _ _ _ _ _ _ _ _ _ _ => t

def format : Schema → String
  | .mk _ f _ _ _ _ _ _ _ _ _ _ _ => f

def min : Schema → Option Int
  | .mk _ _ m _ _ _ _ _ _ _ _ _ _ => m

def title : Schema → String
  | .mk _ _ _ ti _ _ _ _ _ _ _ _ _ => ti

def descr : Schema → String
  | .mk _ _ _ _ de _ _ _ _ _ _ _ _ => de

def dflt : Schema → Option String
  | .mk _ _ _ _ _ df _ _ _ _ _ _ _ => df

def required : Schema → List String
  | .mk _ _ _ _ _ _ rq _ _ _ _ _ _ => rq

def enum : Schema → List Val
  | .mk _ _ _ _ _ _ _ en _ _ _ _ _ => en

def varnames : Schema → List String
  | .mk _ _ _ _ _ _ _ _ vn _ _ _ _ => vn

def props : Schema → List (String × String × Option Schema)
  | .mk _ _ _ _ _ _ _ _ _ pr _ _ _ => pr

def items : Schema → Option (String × Option Schema)
  | .mk _ _ _ _ _ _ _ _ _ _ it _ _ => it

def apHas : Schema → Bool
  | .mk _ _ _ _ _ _ _ _ _ _ _ ah _ => ah

def apSchema : Schema → Option (String × Option Schema)
  | .mk _ _ _ _ _ _ _ _ _ _ _ _ ap => ap

def setTy : Schema → Option SType → Schema
  | .mk _ f m ti de df rq en vn pr it ah ap, t => .mk t f m ti de df rq en vn pr it ah ap

def setFormat : Schema → String → Schema
  | .mk t _ m ti de df rq en vn pr it ah ap, f => .mk t f m ti de df rq en vn pr it ah ap

def setMin : Schema → Option Int → Schema
  | .mk t f _ ti de df rq en vn pr it ah ap, m => .mk t f m ti de df rq en vn pr it ah ap

def setTitle : Schema → String → Schema
  | .mk t f m _ de df rq en vn pr it ah ap, ti => .mk t f m ti de df rq en vn pr it ah ap

def setDescr : Schema → String → Schema
  | .mk t f m ti _ df rq en vn pr it ah ap, de => .mk t f m ti de df rq en vn pr it ah ap

def setDflt : Schema → String → Schema
  | .mk t f m ti de _ rq en vn pr it ah ap, df => .mk t f m ti de (some df) rq en vn pr it ah ap

def addRequired : Schema → String → Schema
  | .mk t f m ti de df rq en vn pr it ah ap, n => .mk t f m ti de df (rq ++ [n]) en vn pr it ah ap

def setEnum : Schema → List Val → Schema
  | .mk t f m ti de df rq _ vn pr it ah ap, en => .mk t f m ti de df rq en vn pr it ah ap

def setVarnames : Schema → List String → Schema
  | .mk t f m ti de df rq en _ pr it ah ap, vn => .mk t f m ti de df rq en vn pr it ah ap

def setProps : Schema → List (String × String × Option Schema) → Schema
  | .mk t f m ti de df rq en vn _ it ah ap, pr => .mk t f m ti de df rq en vn pr it ah ap

def setItems : Schema → Option (String × Option Schema) → Schema
  | .mk t f m ti de df rq en vn pr _ ah ap, it => .mk t f m ti de df rq en vn pr it ah ap

def setApHas : Schema → Bool → Schema
  | .mk t f m ti de df rq en vn pr it _ ap, ah => .mk t f m ti de df rq en vn pr it ah ap

def setApSchema : Schema → Option (String × Option Schema) → Schema
  | .mk t f m ti de df rq en vn pr it ah _, ap => .mk t f m ti de df rq en vn pr it ah ap

end Schema

/-- Overwrite-or-append insertion into a string-keyed association list:
the model of assignment `m[k] = v` on a Go map, keeping entries keyed
differently untouched and replacing an existing binding in place. -/
def insertAssoc {α : Type} : List (String × α) → String → α → List (String × α)
  | [], k, v => [(k, v)]
  | (k', v') :: rest, k, v =>
      if k' = k then (k, v) :: rest else (k', v') :: insertAssoc rest k v

/-- Lookup in a string-keyed association list (Go map read `m[k]`). -/
def lookupAssoc {α : Type} : List (String × α) → String → Option α
  | [], _ => none
  | (k', v') :: rest, k => if k' = k then some v' else lookupAssoc rest k

/-- A schema reference: the `Ref` pointer string and the optional inline
`Value` (`openapi3.SchemaRef`). -/
abbrev SchemaRefM := String × Option Schema

/-- `openapi3.Schemas`: the `components.schemas` registry. -/
abbrev Registry := List (String × SchemaRefM)

/-- `checkSchemaExist`: scans the registry values for a non-nil schema
whose `Title` equals `name`. -/
def checkSchemaExist (name : String) (r : Registry) : Bool :=
  r.any fun e =>
    match e.2.2 with
    | some s => s.title = name
    | none => false

/-- `generateRefName`: builds the document-relative reference pointer. -/
def generateRefName (structName : String) : String :=
  "#/components/schemas/" ++ structName

/-- `strings.Split(s, sep)` for a one-character separator, over char
lists.  Mirrors Go semantics: splitting the empty string yields `[""]`. -/
def splitOnChar (sep : Char) : List Char → List (List Char)
  | [] => [[]]
  | c :: rest =>
      match splitOnChar sep rest with
      | [] => [[]]
      | h :: t => if c = sep then [] :: h :: t else (c :: h) :: t

/-- `strings.TrimSuffix(s, "]")` over char lists. -/
def trimSuffixRB (l : List Char) : List Char :=
  if l.getLast? = some ']' then l.dropLast else l

/-- `removePackageName` over char lists: for a plain name, the part
after the last dot; for a generic instantiation (name ending in `]`),
the last dot component with its closing bracket trimmed, prepended to
the text before the first `[`. -/
def removePackageNameL (name : List Char) : List Char :=
  if name.getLast? = some ']' then
    trimSuffixRB ((splitOnChar '.' name).getLastD []) ++ (splitOnChar '[' name).headD []
  else
    (splitOnChar '.' name).getLastD []

/-- `removePackageName` on strings. -/
def removePackageName (name : String) : String :=
  ⟨removePackageNameL name.toList⟩

/-- The character class `[0-9a-zA-Z]` of the `fixPath` regex. -/
def isAlnum (c : Char) : Bool :=
  ('0' ≤ c && c ≤ '9') || ('a' ≤ c && c ≤ 'z') || ('A' ≤ c && c ≤ 'Z')

theorem length_dropWhile_le (p : Char → Bool) (l : List Char) :
    (l.dropWhile p).length ≤ l.length := by
  induction l with
  | nil => simp [List.dropWhile]
  | cons c rest ih =>
    simp only [List.dropWhile]
    cases p c
    · simp
    · simp
      omega

/-- Left-to-right replacement of every match of `/:([0-9a-zA-Z]+)` with
`/{$1}`, mirroring `regexp.ReplaceAllString` on the anchored scan.  The
fuel parameter only bounds the number of scan steps; every step
consumes at least one input character, so any fuel of at least the
input length gives the scan's result. -/
def fixPathAux (fuel : Nat) (l : List Char) : List Char :=
  match fuel with
  | 0 => l
  | f + 1 =>
    match l with
    | [] => []
    | c :: rest =>
      if c = '/' then
        match rest with
        | [] => [c]
        | c2 :: rest2 =>
          if c2 = ':' then
            let name := rest2.takeWhile isAlnum
            if name = [] then c :: fixPathAux f rest
            else c :: '{' :: (name ++ '}' :: fixPathAux f (rest2.dropWhile isAlnum))
          else c :: fixPathAux f rest
      else c :: fixPathAux f rest

/-- Any two sufficient fuel bounds give the same scan result. -/
theorem fixPathAux_fuel :
    ∀ (f f' : Nat) (l : List Char), l.length ≤ f → l.length ≤ f' →
      fixPathAux f l = fixPathAux f' l := by
  intro f
  induction f with
  | zero =>
    intro f' l h _
    have : l = [] := List.length_eq_zero.mp (Nat.le_zero.mp h)
    subst this
    cases f' <;> rfl
  | succ f ih =>
    intro f' l h h'
    cases f' with
    | zero =>
      have : l = [] := List.length_eq_zero.mp (Nat.le_zero.mp h')
      subst this
      rfl
    | succ f' =>
      match l with
      | [] => rfl
      | c :: rest =>
        simp only [List.length_cons] at h h'
        simp only [fixPathAux]
        by_cases hc : c = '/'
        · simp only [hc, if_true, if_pos rfl]
          match rest with
          | [] => rfl
          | c2 :: rest2 =>
            simp only [List.length_cons] at h h'
            by_cases h2 : c2 = ':'
            · simp only [h2, if_pos rfl]
              by_cases hn : rest2.takeWhile isAlnum = []
              · rw [if_pos hn, if_pos hn,
                  ih f' (':' :: rest2) (by simp; omega) (by simp; omega)]
              · rw [if_neg hn, if_neg hn,
                  ih f' (rest2.dropWhile isAlnum)
                    (le_trans (length_dropWhile_le isAlnum rest2) (by omega))
                    (le_trans (length_dropWhile_le isAlnum rest2) (by omega))]
                simp
            · simp only [if_neg h2]
              rw [ih f' (c2 :: rest2) (by simp; omega) (by simp; omega)]
        · simp only [if_neg hc]
          rw [ih f' rest (by omega) (by omega)]

/-- `fixPath`: rewrites `/:id` positional segments to `/{id}`. -/
def fixPath (path : String) : String :=
  ⟨fixPathAux (path.toList.length + 1) path.toList⟩

/-- An enumerable type (`EnumAble`): a declared name, the underlying
`reflect.Kind`, and the `Enums()` name-to-value mapping.  Go iterates
that map in unspecified order; the model fixes the listed order. -/
structure EnumDef where
  name : String
  kind : RKind
  variants : List (String × Val)
deriving DecidableEq, Repr

/-- First-order description of the Go types the engine can encounter. -/
inductive GoType where
  | prim (k : RKind) : GoType
  | time : GoType
  | enum (e : EnumDef) : GoType
  | named (n : String) : GoType
  | ptr (t : GoType) : GoType
  | slice (t : GoType) : GoType
  | mapOf (v : GoType) : GoType
  | iface : GoType
deriving DecidableEq, Repr

/-- Parsed field annotations (`structtag` categories the engine reads).
Each entry is the tag's `Name` part, `none` when the category is absent. -/
structure Tags where
  form : Option String := none
  json : Option String := none
  uri : Option String := none
  query : Option String := none
  header : Option String := none
  cookie : Option String := none
  descr : Option String := none
  dflt : Option String := none
  validate : Option String := none
deriving DecidableEq, Repr

/-- A struct field: Go name, type, exportedness and parsed tags. -/
structure Field where
  name : String
  type : GoType
  exported : Bool := true
  tags : Tags := {}
deriving DecidableEq, Repr

/-- The named struct declarations in scope (resolves `GoType.named`). -/
abbrev Env := List (String × List Field)

/-- Fields of a struct type; a name missing from the environment is
treated as a struct with no visible fields. -/
def fieldsOf (env : Env) : GoType → List Field
  | .named n => (lookupAssoc env n).getD []
  | _ => []

/-- `reflect.Kind` of a modelled type (`Type.Kind()`); an enumerable
type reports its underlying primitive kind. -/
def kindOf : GoType → RKind
  | .prim k => k
  | .time => .struct
  | .enum e => e.kind
  | .named _ => .struct
  | .ptr _ => .ptr
  | .slice _ => .slice
  | .mapOf _ => .map
  | .iface => .interface

/-- `Type.Name()`: the declared name of a defined type, `""` for
unnamed composite types, and the predeclared name for primitives. -/
def typeName : GoType → String
  | .prim .int => "int"
  | .prim .int8 => "int8"
  | .prim .int16 => "int16"
  | .prim .int32 => "int32"
  | .prim .int64 => "int64"
  | .prim .uint => "uint"
  | .prim .uint8 => "uint8"
  | .prim .uint16 => "uint16"
  | .prim .uint32 => "uint32"
  | .prim .uint64 => "uint64"
  | .prim .float32 => "float32"
  | .prim .float64 => "float64"
  | .prim .string => "string"
  | .prim .bool => "bool"
  | .prim _ => ""
  | .time => "Time"
  | .enum e => e.name
  | .named n => n
  | _ => ""

/-- One level of pointer dereference (`if Kind == Ptr { Elem() }`). -/
def stripPtr1 : GoType → GoType
  | .ptr t => t
  | t => t

/-- `Type.Elem()` for slice and map types. -/
def elemOf : GoType → GoType
  | .slice t => t
  | .mapOf v => v
  | t => t

/-- `isBuiltinType`: kinds Go groups as built-in scalar types. -/
def isBuiltinType (t : GoType) : Bool :=
  match kindOf t with
  | .bool | .int | .int8 | .int16 | .int32 | .int64
  | .uint | .uint8 | .uint16 | .uint32 | .uint64 | .uintptr
  | .float32 | .float64 | .complex64 | .complex128 | .string => true
  | _ => false

/-- `isRequiredTags`: the `validate` tag's name part, split on commas,
contains the literal token `required`. -/
def isRequiredTags (tags : Tags) : Bool :=
  match tags.validate with
  | some v => (splitOnChar ',' v.toList).any fun tok => tok = "required".toList
  | none => false

/-- Outcome of a fuel-instrumented walk: a result, a Go `panic`
(`err`), or fuel exhaustion (`fuelOut`). -/
inductive Res (α : Type) where
  | ok (a : α)
  | err (msg : String)
  | fuelOut

def Res.bind {α β : Type} : Res α → (α → Res β) → Res β
  | .ok a, g => g a
  | .err m, _ => .err m
  | .fuelOut, _ => .fuelOut

/-- Schema constructors from `openapi3`. -/
def mkPrimSchema (t : SType) (fmt : String) : Schema :=
  .mk (some t) fmt none "" "" none [] [] [] [] none false none

def NewIntegerSchema : Schema := mkPrimSchema .integer ""
def NewInt32Schema : Schema := mkPrimSchema .integer "int32"
def NewInt64Schema : Schema := mkPrimSchema .integer "int64"
def NewStringSchema : Schema := mkPrimSchema .str ""
def NewFloat64Schema : Schema := mkPrimSchema .number ""
def NewBoolSchema : Schema := mkPrimSchema .boolean ""
def NewBytesSchema : Schema := mkPrimSchema .str "byte"
def NewDateTimeSchema : Schema := mkPrimSchema .str "date-time"
def NewObjectSchema : Schema :=
  .mk (some .object) "" none "" "" none [] [] [] [] none false none
def NewArraySchema : Schema :=
  .mk (some .array) "" none "" "" none [] [] [] [] none false none

/-- `getBasicSchemaByType`: kind-indexed primitive classification.  The
switch has no default case, so an unmatched kind leaves the result at
its zero value and the function returns a nil schema (`none`). -/
def getBasicSchemaByType (typ : RKind) : Option Schema :=
  match typ with
  | .int | .int8 | .int16 => some NewIntegerSchema
  | .uint | .uint8 | .uint16 => some (NewIntegerSchema.setMin (some 0))
  | .int32 => some NewInt32Schema
  | .uint32 => some (NewInt32Schema.setMin (some 0))
  | .int64 => some NewInt64Schema
  | .uint64 => some (NewInt64Schema.setMin (some 0))
  | .string => some NewStringSchema
  | .float32 => some (NewFloat64Schema.setFormat "float")
  | .float64 => some (NewFloat64Schema.setFormat "double")
  | .bool => some NewBoolSchema
  | _ => none

/-- `NewEnumSchema`: base schema for an enum's underlying kind; an
unsupported kind panics (`err`). -/
def NewEnumSchema (name : String) (kind : RKind) : Res Schema :=
  match kind with
  | .bool => .ok NewBoolSchema
  | .int8 | .int16 | .int | .uint8 | .uint16 | .uint => .ok NewIntegerSchema
  | .int32 | .uint32 => .ok NewInt32Schema
  | .int64 | .uint64 => .ok NewInt64Schema
  | .float32 => .ok (NewFloat64Schema.setFormat "float")
  | .float64 => .ok (NewFloat64Schema.setFormat "double")
  | .string => .ok NewStringSchema
  | _ => .err ("'" ++ name ++ "' invalid Enum type")

/-- `GetEnumVal`: converts an accepted raw value to the enum's
underlying kind via `gconv` (modelled as the identity on the value,
which is already well-typed when drawn from the enum's value set); an
unsupported kind panics. -/
def GetEnumVal (name : String) (kind : RKind) (val : Val) : Res Val :=
  match kind with
  | .bool | .int8 | .int16 | .int | .uint8 | .uint16 | .uint
  | .int32 | .uint32 | .int64 | .uint64
  | .float32 | .float64 | .string => .ok val
  | _ => .err ("'" ++ name ++ "' invalid Enum val")

/-- The coercion closure registered with the validator for an enum: a
raw value in the enum's value set is converted, any other value
panics (surfaced by the binding layer as a request-validation
rejection). -/
def enumCoercion (e : EnumDef) (val : Val) : Res Val :=
  if (e.variants.map Prod.snd).contains val then
    GetEnumVal e.name e.kind val
  else
    .err ("enum '" ++ e.name ++ "' invalid value")

/-- The value-based primitive cases of `getSchemaByValue`'s type
switch (its case arms map each primitive kind exactly as
`getBasicSchemaByType` does; an unlisted kind falls through to the
default branch). -/
def gsvPrimSchema (k : RKind) : Option Schema :=
  getBasicSchemaByType k

/-- The nil-model schema built by both model walkers when
`reflect.TypeOf(model)` is nil: an object schema whose `Items` is an
empty object schema. -/
def nilModelSchema : Schema :=
  NewObjectSchema.setItems (some ("", some NewObjectSchema))

mutual

/-- `getSchemaByValue`: value-driven dispatch.  Primitive values map
through the type switch; `time.Time` yields a date-time schema; `[]byte`
a byte schema; an enumerable value takes the enum derivation path
(registering the enum schema in the registry); anything else falls to
the request/response model walker according to the `request` flag. -/
def getSchemaByValue (env : Env) (fuel : Nat) (t : GoType) (request : Bool)
    (r : Registry) : Res (String × Schema × Registry) :=
  match fuel with
  | 0 => .fuelOut
  | f + 1 =>
    match t with
    | .prim k =>
      match gsvPrimSchema k with
      | some s => .ok ("", s, r)
      | none =>
        if request then getRequestSchemaByModel env f (.prim k) r
        else getResponseSchemaByModel env f (.prim k) r
    | .time => .ok ("", NewDateTimeSchema, r)
    | .slice (.prim .uint8) => .ok ("", NewBytesSchema, r)
    | .enum e =>
      let enums := e.variants.map Prod.snd
      let names := e.variants.map Prod.fst
      match NewEnumSchema e.name e.kind with
      | .err m => .err m
      | .fuelOut => .fuelOut
      | .ok s0 =>
        let s := ((s0.setTitle e.name).setEnum enums).setVarnames names
        let r := insertAssoc r e.name ("", some s)
        .ok (generateRefName e.name, s, r)
    | t' =>
      if request then getRequestSchemaByModel env f t' r
      else getResponseSchemaByModel env f t' r

/-- `getRequestSchemaByModel`: inbound inline schema for a model. -/
def getRequestSchemaByModel (env : Env) (fuel : Nat) (t0 : GoType)
    (r : Registry) : Res (String × Schema × Registry) :=
  match fuel with
  | 0 => .fuelOut
  | f + 1 =>
    match t0 with
    | .iface => .ok ("", nilModelSchema, r)
    | _ =>
      let t := stripPtr1 t0
      match t with
      | .named _ | .time =>
        (reqFields env f (fieldsOf env t) NewObjectSchema r).bind fun sr =>
          .ok ("", sr.1, sr.2)
      | .slice el =>
        (getRequestSchemaByModel env f el r).bind fun irr =>
          .ok ("", NewArraySchema.setItems (some (irr.1, some irr.2.1)), irr.2.2)
      | .mapOf vt =>
        (getRequestSchemaByModel env f vt r).bind fun irr =>
          .ok ("", NewObjectSchema.setItems (some (irr.1, some irr.2.1)), irr.2.2)
      | _ => getSchemaByValue env f t0 true r

/-- The field loop of `getRequestSchemaByModel`: only fields bearing a
`form` tag participate, keyed by that tag's name. -/
def reqFields (env : Env) (fuel : Nat) (fields : List Field) (s : Schema)
    (r : Registry) : Res (Schema × Registry) :=
  match fuel with
  | 0 => .fuelOut
  | f + 1 =>
    match fields with
    | [] => .ok (s, r)
    | fld :: rest =>
      match fld.tags.form with
      | none => reqFields env f rest s r
      | some formName =>
        (getSchemaByValue env f (stripPtr1 fld.type) true r).bind fun frr =>
          let fs := frr.2.1
          let fs := match fld.tags.descr with
            | some d => fs.setDescr d
            | none => fs
          let fs := match fld.tags.dflt with
            | some d => fs.setDflt d
            | none => fs
          reqFields env f rest
            (s.setProps (insertAssoc s.props formName (frr.1, some fs))) frr.2.2

/-- `getResponseSchemaByModel`: outbound inline schema for a model; a
struct model additionally reports its reference pointer. -/
def getResponseSchemaByModel (env : Env) (fuel : Nat) (t0 : GoType)
    (r : Registry) : Res (String × Schema × Registry) :=
  match fuel with
  | 0 => .fuelOut
  | f + 1 =>
    match t0 with
    | .iface => .ok ("", nilModelSchema, r)
    | _ =>
      let t := stripPtr1 t0
      match t with
      | .named _ | .time =>
        (respFields env f (fieldsOf env t) NewObjectSchema r).bind fun sr =>
          .ok (generateRefName (typeName t), sr.1, sr.2)
      | .slice el =>
        (getResponseSchemaByModel env f el r).bind fun irr =>
          .ok ("", NewArraySchema.setItems (some (irr.1, some irr.2.1)), irr.2.2)
      | .mapOf vt =>
        (getResponseSchemaByModel env f vt r).bind fun irr =>
          .ok ("", NewObjectSchema.setItems (some (irr.1, some irr.2.1)), irr.2.2)
      | _ => getSchemaByValue env f t0 false r

/-- The field loop of `getResponseSchemaByModel`: every exported field
is inspected (its schema is derived, with any registry side effects,
before the `json` tag is consulted), but only fields bearing a `json`
tag contribute a property, keyed by that tag's name. -/
def respFields (env : Env) (fuel : Nat) (fields : List Field) (s : Schema)
    (r : Registry) : Res (Schema × Registry) :=
  match fuel with
  | 0 => .fuelOut
  | f + 1 =>
    match fields with
    | [] => .ok (s, r)
    | fld :: rest =>
      if fld.exported then
        (getSchemaByValue env f fld.type false r).bind fun frr =>
          match fld.tags.json with
          | none => respFields env f rest s frr.2.2
          | some jsonName =>
            let s := if isRequiredTags fld.tags then s.addRequired jsonName else s
            let fs := frr.2.1
            let fs := match fld.tags.descr with
              | some d => fs.setDescr d
              | none => fs
            let fs := match fld.tags.dflt with
              | some d => fs.setDflt d
              | none => fs
            respFields env f rest
              (s.setProps (insertAssoc s.props jsonName (frr.1, some fs))) frr.2.2
      else respFields env f rest s r

/-- `getComponentByModel`: synthesizes the named component for a model
into the registry.  The registry entry is inserted only after all
fields have been processed; nested struct fields trigger a recursive
synthesis when `checkSchemaExist` does not find their name. -/
def getComponentByModel (env : Env) (fuel : Nat) (t0 : GoType) (isReq : Bool)
    (r : Registry) : Res Registry :=
  match fuel with
  | 0 => .fuelOut
  | f + 1 =>
    match t0 with
    | .iface => .ok r
    | _ =>
      let t := stripPtr1 t0
      (if kindOf t = .struct then
        compFields env isReq f (fieldsOf env t) NewObjectSchema r
      else
        .ok (NewObjectSchema, r)).bind fun sr =>
      let title := removePackageName (typeName t)
      .ok (insertAssoc sr.2 title ("", some (sr.1.setTitle title)))

/-- The field loop of `getComponentByModel`. -/
def compFields (env : Env) (isReq : Bool) (fuel : Nat) (fields : List Field)
    (s : Schema) (r : Registry) : Res (Schema × Registry) :=
  match fuel with
  | 0 => .fuelOut
  | f + 1 =>
    match fields with
    | [] => .ok (s, r)
    | fld :: rest =>
      if fld.tags.form = none ∧ isReq then compFields env isReq f rest s r
      else
        let ft := stripPtr1 fld.type
        let fieldName :=
          if isReq then fld.tags.form.getD ""
          else
            match fld.tags.json with
            | some j => j
            | none => fld.name
        let s := if isRequiredTags fld.tags then s.addRequired fieldName else s
        match kindOf ft with
        | .struct =>
          if typeName ft = "Time" then
            (getSchemaByValue env f ft isReq r).bind fun frr =>
              let fs := (frr.2.1.setFormat "date-time").setTy (some .str)
              compFields env isReq f rest
                (s.setProps (insertAssoc s.props fieldName (frr.1, some fs))) frr.2.2
          else
            (if checkSchemaExist (typeName ft) r = false then
              getComponentByModel env f ft isReq r
            else
              .ok r).bind fun r' =>
            compFields env isReq f rest
              (s.setProps
                (insertAssoc s.props fieldName (generateRefName (typeName ft), none))) r'
        | .slice =>
          (getSchemaByValue env f ft isReq r).bind fun frr =>
            if isBuiltinType (elemOf ft) = false then
              let subT := stripPtr1 (elemOf ft)
              (if checkSchemaExist (typeName subT) frr.2.2 = false then
                getComponentByModel env f subT isReq frr.2.2
              else
                .ok frr.2.2).bind fun r' =>
              let fs := frr.2.1.setItems (some (generateRefName (typeName subT), none))
              compFields env isReq f rest
                (s.setProps (insertAssoc s.props fieldName (frr.1, some fs))) r'
            else
              let fs := frr.2.1
              let fs := match fld.tags.descr with
                | some d => fs.setDescr d
                | none => fs
              let fs := match fld.tags.dflt with
                | some d => fs.setDflt d
                | none => fs
              compFields env isReq f rest
                (s.setProps (insertAssoc s.props fieldName (frr.1, some fs))) frr.2.2
        | .map =>
          let vt := elemOf ft
          let apRes : Res (Schema × Registry) :=
            match kindOf vt with
            | .interface => .ok (NewObjectSchema.setApHas true, r)
            | .struct =>
              (if checkSchemaExist (typeName vt) r = false then
                getComponentByModel env f vt isReq r
              else
                .ok r).bind fun r' =>
              .ok
                (NewObjectSchema.setApSchema (some (generateRefName (typeName vt), none)),
                  r')
            | k => .ok (NewObjectSchema.setApSchema (some ("", getBasicSchemaByType k)), r)
          apRes.bind fun fsr =>
          compFields env isReq f rest
            (s.setProps (insertAssoc s.props fieldName ("", some fsr.1))) fsr.2
        | .interface =>
          compFields env isReq f rest
            (s.setProps (insertAssoc s.props fieldName ("", some NewObjectSchema))) r
        | _ =>
          (getSchemaByValue env f ft isReq r).bind fun frr =>
            let fs := frr.2.1
            let fs := match fld.tags.descr with
              | some d => fs.setDescr d
              | none => fs
            let fs := match fld.tags.dflt with
              | some d => fs.setDflt d
              | none => fs
            compFields env isReq f rest
              (s.setProps (insertAssoc s.props fieldName (frr.1, some fs))) frr.2.2

end

/-- An `openapi3.Parameter` together with the surrounding
`ParameterRef`'s pointer string. -/
structure Param where
  locIn : String := ""
  name : String := ""
  required : Bool := false
  descr : String := ""
  schema : Option Schema := none
  ref : String := ""

/-- The field loop of `getParametersByModel`: the four location tags
are consulted in the order query, uri, header, cookie, each present
tag overwriting the location and name chosen so far; a field whose
location remains empty is skipped. -/
def paramFields (env : Env) (fuel : Nat) (fields : List Field)
    (acc : List Param) (r : Registry) : Res (List Param × Registry) :=
  match fuel with
  | 0 => .fuelOut
  | f + 1 =>
    match fields with
    | [] => .ok (acc, r)
    | fld :: rest =>
      let p : Param := {}
      let p := match fld.tags.query with
        | some n => { p with locIn := "query", name := n }
        | none => p
      let p := match fld.tags.uri with
        | some n => { p with locIn := "path", name := n }
        | none => p
      let p := match fld.tags.header with
        | some n => { p with locIn := "header", name := n }
        | none => p
      let p := match fld.tags.cookie with
        | some n => { p with locIn := "cookie", name := n }
        | none => p
      if p.locIn = "" then paramFields env f rest acc r
      else
        let p := match fld.tags.descr with
          | some d => { p with descr := d }
          | none => p
        let p := if isRequiredTags fld.tags then { p with required := true } else p
        (getSchemaByValue env f fld.type true r).bind fun frr =>
          let sch := match fld.tags.dflt with
            | some d => frr.2.1.setDflt d
            | none => frr.2.1
          paramFields env f rest
            (acc ++ [{ p with schema := some sch, ref := frr.1 }]) frr.2.2

/-- `getParametersByModel`: parameter descriptors for a request model
(a non-struct model would make `reflect.Type.NumField` panic). -/
def getParametersByModel (env : Env) (fuel : Nat) (t0 : GoType)
    (r : Registry) : Res (List Param × Registry) :=
  match fuel with
  | 0 => .fuelOut
  | f + 1 =>
    let t := stripPtr1 t0
    if kindOf t = .struct then paramFields env f (fieldsOf env t) [] r
    else .err "reflect: NumField of non-struct type"

/-! ### Helper functions for stating properties -/

def Res.isOk {α : Type} : Res α → Bool
  | .ok _ => true
  | _ => false

def Res.isErr {α : Type} : Res α → Bool
  | .err _ => true
  | _ => false

def Res.getD {α : Type} : Res α → α → α
  | .ok a, _ => a
  | _, d => d

/-- Type, format and minimum of an optional schema. -/
def schemaFacet (o : Option Schema) : Option (Option SType × String × Option Int) :=
  o.map fun s => (s.ty, s.format, s.min)

/-- The schema component of a `getSchemaByValue`-shaped result. -/
def resSchema (x : Res (String × Schema × Registry)) : Option Schema :=
  match x with
  | .ok a => some a.2.1
  | _ => none

/-- The enum value list of a `getSchemaByValue`-shaped result. -/
def resEnumList (x : Res (String × Schema × Registry)) : List Val :=
  match x with
  | .ok a => a.2.1.enum
  | _ => []

/-- The parameter locations of a `getParametersByModel` result. -/
def paramLocsOf (x : Res (List Param × Registry)) : List String :=
  match x with
  | .ok a => a.1.map Param.locIn
  | _ => []

/-- The property names of the registry entry stored under `key`. -/
def propNamesAt (r : Registry) (key : String) : List String :=
  match lookupAssoc r key with
  | some (_, some s) => s.props.map Prod.fst
  | _ => []

/-- The primitive kinds both classifiers support. -/
def supportedKind (k : RKind) : Bool :=
  match k with
  | .int | .int8 | .int16 | .int32 | .int64
  | .uint | .uint8 | .uint16 | .uint32 | .uint64
  | .float32 | .float64 | .string | .bool => true
  | _ => false

/-! ### General helper lemmas -/

theorem Res.bind_eq_ok {α β : Type} {x : Res α} {g : α → Res β} {b : β} :
    x.bind g = .ok b ↔ ∃ a, x = .ok a ∧ g a = .ok b := by
  cases x <;> simp [Res.bind]

theorem takeWhile_app {p : Char → Bool} {xs ys : List Char}
    (h1 : ∀ c ∈ xs, p c = true) (h2 : ∀ c, ys.head? = some c → p c = false) :
    (xs ++ ys).takeWhile p = xs := by
  induction xs with
  | nil =>
    simp only [List.nil_append]
    cases ys with
    | nil => rfl
    | cons y t => simp [List.takeWhile, h2 y rfl]
  | cons x t ih =>
    simp only [List.cons_append, List.takeWhile]
    rw [h1 x (by simp)]
    exact congrArg (x :: ·) (ih fun c hc => h1 c (List.mem_cons_of_mem _ hc))

theorem dropWhile_app {p : Char → Bool} {xs ys : List Char}
    (h1 : ∀ c ∈ xs, p c = true) (h2 : ∀ c, ys.head? = some c → p c = false) :
    (xs ++ ys).dropWhile p = ys := by
  induction xs with
  | nil =>
    simp only [List.nil_append]
    cases ys with
    | nil => rfl
    | cons y t => simp [List.dropWhile, h2 y rfl]
  | cons x t ih =>
    simp only [List.cons_append, List.dropWhile]
    rw [h1 x (by simp)]
    exact ih fun c hc => h1 c (List.mem_cons_of_mem _ hc)

theorem insertAssoc_lookup_self {α : Type} (r : List (String × α)) (k : String) (v : α)
    (h : lookupAssoc r k = some v) : insertAssoc r k v = r := by
  induction r with
  | nil => simp [lookupAssoc] at h
  | cons e rest ih =>
    obtain ⟨k', v'⟩ := e
    simp only [lookupAssoc] at h
    simp only [insertAssoc]
    by_cases hk : k' = k
    · subst hk
      rw [if_pos rfl] at h
      rw [if_pos rfl]
      cases h
      rfl
    · rw [if_neg hk] at h
      rw [if_neg hk, ih h]

theorem insertAssoc_keys {α : Type} (r : List (String × α)) (k : String) (v : α) :
    (insertAssoc r k v).map Prod.fst =
      if k ∈ r.map Prod.fst then r.map Prod.fst else r.map Prod.fst ++ [k] := by
  induction r with
  | nil => simp [insertAssoc]
  | cons e rest ih =>
    obtain ⟨k', v'⟩ := e
    simp only [insertAssoc]
    by_cases hk : k' = k
    · subst hk
      simp
    · rw [if_neg hk]
      simp only [List.map_cons, ih, List.mem_cons]
      by_cases hm : k ∈ rest.map Prod.fst
      · rw [if_pos hm, if_pos (Or.inr hm)]
      · rw [if_neg hm, if_neg (by rintro (h1 | h1); exact hk h1.symm; exact hm h1)]
        simp

theorem insertAssoc_keys_of_mem {α : Type} (r : List (String × α)) (k : String) (v : α)
    (h : k ∈ r.map Prod.fst) : (insertAssoc r k v).map Prod.fst = r.map Prod.fst := by
  rw [insertAssoc_keys, if_pos h]

theorem insertAssoc_keys_nodup {α : Type} (r : List (String × α)) (k : String) (v : α)
    (h : (r.map Prod.fst).Nodup) : ((insertAssoc r k v).map Prod.fst).Nodup := by
  rw [insertAssoc_keys]
  by_cases hm : k ∈ r.map Prod.fst
  · rwa [if_pos hm]
  · rw [if_neg hm]
    simp [List.nodup_append, h, hm]

/-! ### Lemmas about `splitOnChar` and `removePackageName` -/

theorem splitOnChar_ne_nil (sep : Char) (l : List Char) : splitOnChar sep l ≠ [] := by
  cases l with
  | nil => simp [splitOnChar]
  | cons c rest =>
    simp only [splitOnChar]
    cases h : splitOnChar sep rest
    · simp
    · by_cases hc : c = sep <;> simp [hc]

theorem splitOnChar_of_not_mem {sep : Char} {l : List Char} (h : sep ∉ l) :
    splitOnChar sep l = [l] := by
  induction l with
  | nil => rfl
  | cons c rest ih =>
    simp only [splitOnChar]
    rw [ih fun hm => h (List.mem_cons_of_mem _ hm)]
    simp [show ¬(c = sep) from fun he => h (by simp [he])]

theorem splitOnChar_pieces {sep : Char} :
    ∀ (l : List Char), ∀ piece ∈ splitOnChar sep l, sep ∉ piece := by
  intro l
  induction l with
  | nil =>
    intro piece hp
    simp [splitOnChar] at hp
    subst hp
    simp
  | cons c rest ih =>
    intro piece hp
    cases hsp : splitOnChar sep rest with
    | nil => exact absurd hsp (splitOnChar_ne_nil sep rest)
    | cons h t =>
      simp only [splitOnChar, hsp] at hp
      by_cases hc : c = sep
      · rw [if_pos hc] at hp
        rcases List.mem_cons.mp hp with h1 | h1
        · subst h1; simp
        · exact ih piece (hsp ▸ h1)
      · rw [if_neg hc] at hp
        rcases List.mem_cons.mp hp with h1 | h1
        · subst h1
          intro hmem
          rcases List.mem_cons.mp hmem with h2 | h2
          · exact hc h2.symm
          · exact ih h (by rw [hsp]; exact List.mem_cons_self h t) h2
        · exact ih piece (by rw [hsp]; exact List.mem_cons_of_mem _ h1)

theorem splitOnChar_headD (sep : Char) (l : List Char) :
    (splitOnChar sep l).headD [] = l.takeWhile (fun c => c != sep) := by
  induction l with
  | nil => rfl
  | cons c rest ih =>
    cases hsp : splitOnChar sep rest with
    | nil => exact absurd hsp (splitOnChar_ne_nil sep rest)
    | cons h t =>
      rw [hsp] at ih
      simp only [splitOnChar, hsp]
      by_cases hc : c = sep
      · subst hc
        simp [List.takeWhile]
      · rw [if_neg hc]
        have hb : (c != sep) = true := by simp [hc]
        simp only [List.headD] at ih ⊢
        simp [List.takeWhile, hb, ← ih]

theorem splitOnChar_length2 {sep : Char} {l : List Char} (h : sep ∈ l) :
    2 ≤ (splitOnChar sep l).length := by
  induction l with
  | nil => simp at h
  | cons c rest ih =>
    cases hsp : splitOnChar sep rest with
    | nil => exact absurd hsp (splitOnChar_ne_nil sep rest)
    | cons hh t =>
      simp only [splitOnChar, hsp]
      by_cases hc : c = sep
      · simp [hc]
      · rw [if_neg hc]
        rcases List.mem_cons.mp h with h1 | h1
        · exact absurd h1.symm hc
        · have := ih h1
          rw [hsp] at this
          simp at this ⊢
          omega

theorem getLastD_irrel {α : Type} :
    ∀ (l : List α), l ≠ [] → ∀ a b, l.getLastD a = l.getLastD b := by
  intro l
  induction l with
  | nil => intro h; exact absurd rfl h
  | cons x xs ih =>
    intro _ a b
    rw [List.getLastD_cons, List.getLastD_cons]

theorem getLastD_mem {α : Type} :
    ∀ (l : List α) (d : α), l ≠ [] → l.getLastD d ∈ l := by
  intro l
  induction l with
  | nil => intro d h; exact absurd rfl h
  | cons x xs ih =>
    intro d _
    rw [List.getLastD_cons]
    cases hx : xs with
    | nil => simp
    | cons y ys => exact List.mem_cons_of_mem _ (hx ▸ ih x (by simp [hx]))

theorem splitOnChar_getLastD {sep : Char} :
    ∀ (pre suf : List Char), sep ∉ suf →
      (splitOnChar sep (pre ++ sep :: suf)).getLastD [] = suf := by
  intro pre
  induction pre with
  | nil =>
    intro suf hs
    simp only [List.nil_append, splitOnChar]
    rw [splitOnChar_of_not_mem hs]
    simp [List.getLastD_cons]
  | cons c pre' ih =>
    intro suf hs
    cases hsp : splitOnChar sep (pre' ++ sep :: suf) with
    | nil => exact absurd hsp (splitOnChar_ne_nil _ _)
    | cons h t =>
      have hsp' : splitOnChar sep (pre'.append (sep :: suf)) = h :: t := hsp
      simp only [List.cons_append, splitOnChar, hsp, hsp']
      have hlen : 2 ≤ (h :: t).length := by
        rw [← hsp]
        exact splitOnChar_length2 (by simp)
      have ht : t ≠ [] := by
        intro he
        rw [he] at hlen
        simp at hlen
      have hlast := ih suf hs
      rw [hsp] at hlast
      rw [List.getLastD_cons] at hlast
      by_cases hc : c = sep
      · rw [if_pos hc, List.getLastD_cons, List.getLastD_cons]
        exact hlast
      · rw [if_neg hc, List.getLastD_cons]
        rwa [getLastD_irrel t ht (c :: h) h]

theorem removePackageNameL_generic (c p x : List Char) (hx : '.' ∉ x) (hc : '[' ∉ c) :
    removePackageNameL (c ++ '[' :: p ++ '.' :: x ++ [']']) = x ++ c := by
  unfold removePackageNameL
  have hlast : (c ++ '[' :: p ++ '.' :: x ++ [']']).getLast? = some ']' := by
    have e : c ++ '[' :: p ++ '.' :: x ++ [']'] = (c ++ '[' :: p ++ '.' :: x) ++ [']'] := by
      simp
    rw [e, List.getLast?_concat]
  rw [if_pos hlast]
  have hdot : (splitOnChar '.' (c ++ '[' :: p ++ '.' :: x ++ [']'])).getLastD [] =
      x ++ [']'] := by
    have e : c ++ '[' :: p ++ '.' :: x ++ [']'] = (c ++ '[' :: p) ++ '.' :: (x ++ [']']) := by
      simp
    rw [e]
    apply splitOnChar_getLastD
    intro hm
    rcases List.mem_append.mp hm with h1 | h1
    · exact hx h1
    · simp at h1
  have hbr : (splitOnChar '[' (c ++ '[' :: p ++ '.' :: x ++ [']'])).headD [] = c := by
    rw [splitOnChar_headD]
    have e : c ++ '[' :: p ++ '.' :: x ++ [']'] = c ++ ('[' :: (p ++ '.' :: x ++ [']'])) := by
      simp
    rw [e]
    refine takeWhile_app ?_ ?_
    · intro ch hm
      simp only [bne_iff_ne, ne_eq, decide_eq_true_eq]
      intro he
      exact hc (he ▸ hm)
    · intro ch hh
      simp only [List.head?] at hh
      injection hh with hh
      subst hh
      simp
  rw [hdot, hbr]
  unfold trimSuffixRB
  rw [if_pos (by rw [List.getLast?_concat]), List.dropLast_concat]

/-! ### Registry key/title coherence (walker invariant) -/

/-- Key/title coherence: every registry entry has a non-nil schema
whose `Title` equals its map key. -/
def WFReg (r : Registry) : Prop :=
  ∀ p ∈ r, ∃ s, p.2.2 = some s ∧ s.title = p.1

theorem title_setTitle (s : Schema) (t : String) : (s.setTitle t).title = t := by
  cases s; rfl

theorem title_setEnum (s : Schema) (e : List Val) : (s.setEnum e).title = s.title := by
  cases s; rfl

theorem title_setVarnames (s : Schema) (v : List String) : (s.setVarnames v).title = s.title := by
  cases s; rfl

theorem insertAssoc_mem_cases {α : Type} {r : List (String × α)} {k : String} {v : α}
    {q : String × α} (h : q ∈ insertAssoc r k v) : q = (k, v) ∨ q ∈ r := by
  induction r with
  | nil => simp [insertAssoc] at h; left; exact h
  | cons e rest ih =>
    simp only [insertAssoc] at h
    by_cases hk : e.1 = k
    · rw [if_pos hk] at h
      rcases List.mem_cons.mp h with h1 | h1
      · left; exact h1
      · right; exact List.mem_cons_of_mem _ h1
    · rw [if_neg hk] at h
      rcases List.mem_cons.mp h with h1 | h1
      · right; exact h1 ▸ List.mem_cons_self e rest
      · rcases ih h1 with h2 | h2
        · left; exact h2
        · right; exact List.mem_cons_of_mem _ h2

theorem WFReg_insert {r : Registry} {k ref : String} {s : Schema}
    (hw : WFReg r) (ht : s.title = k) : WFReg (insertAssoc r k (ref, some s)) := by
  intro p hp
  rcases insertAssoc_mem_cases hp with h | h
  · subst h; exact ⟨s, rfl, ht⟩
  · exact hw p h

theorem walkerWF : ∀ fuel : Nat,
    (∀ (env : Env) (t : GoType) (req : Bool) (r : Registry) (out : String × Schema × Registry),
      WFReg r → getSchemaByValue env fuel t req r = .ok out → WFReg out.2.2) ∧
    (∀ (env : Env) (t : GoType) (r : Registry) (out : String × Schema × Registry),
      WFReg r → getRequestSchemaByModel env fuel t r = .ok out → WFReg out.2.2) ∧
    (∀ (env : Env) (t : GoType) (r : Registry) (out : String × Schema × Registry),
      WFReg r → getResponseSchemaByModel env fuel t r = .ok out → WFReg out.2.2) ∧
    (∀ (env : Env) (flds : List Field) (s : Schema) (r : Registry) (out : Schema × Registry),
      WFReg r → reqFields env fuel flds s r = .ok out → WFReg out.2) ∧
    (∀ (env : Env) (flds : List Field) (s : Schema) (r : Registry) (out : Schema × Registry),
      WFReg r → respFields env fuel flds s r = .ok out → WFReg out.2) ∧
    (∀ (env : Env) (t : GoType) (isReq : Bool) (r : Registry) (r' : Registry),
      WFReg r → getComponentByModel env fuel t isReq r = .ok r' → WFReg r') ∧
    (∀ (env : Env) (isReq : Bool) (flds : List Field) (s : Schema) (r : Registry)
        (out : Schema × Registry),
      WFReg r → compFields env isReq fuel flds s r = .ok out → WFReg out.2) ∧
    (∀ (env : Env) (flds : List Field) (acc : List Param) (r : Registry)
        (out : List Param × Registry),
      WFReg r → paramFields env fuel flds acc r = .ok out → WFReg out.2) := by
  intro fuel
  induction fuel with
  | zero =>
    refine ⟨?_, ?_, ?_, ?_, ?_, ?_, ?_, ?_⟩
    · intro env t req r out hw h; simp [getSchemaByValue] at h
    · intro env t r out hw h; simp [getRequestSchemaByModel] at h
    · intro env t r out hw h; simp [getResponseSchemaByModel] at h
    · intro env flds s r out hw h; simp [reqFields] at h
    · intro env flds s r out hw h; simp [respFields] at h
    · intro env t isReq r r' hw h; simp [getComponentByModel] at h
    · intro env isReq flds s r out hw h; simp [compFields] at h
    · intro env flds acc r out hw h; simp [paramFields] at h
  | succ f ih =>
    obtain ⟨ihGsv, ihReq, ihResp, ihReqF, ihRespF, ihGcm, ihCompF, ihParF⟩ := ih
    refine ⟨?_, ?_, ?_, ?_, ?_, ?_, ?_, ?_⟩
    · -- getSchemaByValue
      intro env t req r out hw h
      simp only [getSchemaByValue] at h
      split at h <;> try split at h <;> try split at h
      all_goals
        first
          | exact Res.noConfusion h
          | (cases h; exact hw)
          | (cases h
             refine WFReg_insert hw ?_
             rw [title_setVarnames, title_setEnum, title_setTitle])
          | exact ihReq _ _ _ _ hw h.symm
          | exact ihResp _ _ _ _ hw h.symm
          | exact ihReq _ _ _ _ hw h
          | exact ihResp _ _ _ _ hw h
    · -- getRequestSchemaByModel
      intro env t r out hw h
      simp only [getRequestSchemaByModel] at h
      split at h <;> try split at h
      all_goals
        first
          | exact Res.noConfusion h
          | (cases h; exact hw)
          | exact ihGsv _ _ _ _ _ hw h.symm
          | exact ihGsv _ _ _ _ _ hw h
          | (rcases Res.bind_eq_ok.mp h.symm with ⟨a, ha, hb⟩
             cases hb
             first
               | exact ihReqF _ _ _ _ a hw ha
               | exact ihReq _ _ _ a hw ha)
          | (rcases Res.bind_eq_ok.mp h with ⟨a, ha, hb⟩
             cases hb
             first
               | exact ihReqF _ _ _ _ a hw ha
               | exact ihReq _ _ _ a hw ha)
    · -- getResponseSchemaByModel
      intro env t r out hw h
      simp only [getResponseSchemaByModel] at h
      split at h <;> try split at h
      all_goals
        first
          | exact Res.noConfusion h
          | (cases h; exact hw)
          | exact ihGsv _ _ _ _ _ hw h.symm
          | exact ihGsv _ _ _ _ _ hw h
          | (rcases Res.bind_eq_ok.mp h.symm with ⟨a, ha, hb⟩
             cases hb
             first
               | exact ihRespF _ _ _ _ a hw ha
               | exact ihResp _ _ _ a hw ha)
          | (rcases Res.bind_eq_ok.mp h with ⟨a, ha, hb⟩
             cases hb
             first
               | exact ihRespF _ _ _ _ a hw ha
               | exact ihResp _ _ _ a hw ha)
    · -- reqFields
      intro env flds s r out hw h
      simp only [reqFields] at h
      split at h <;> try split at h
      all_goals
        first
          | exact Res.noConfusion h
          | (cases h; exact hw)
          | exact ihReqF _ _ _ _ _ hw h.symm
          | exact ihReqF _ _ _ _ _ hw h
          | (rcases Res.bind_eq_ok.mp h.symm with ⟨a, ha, hb⟩
             exact ihReqF _ _ _ _ _ (ihGsv _ _ _ _ _ hw ha) hb)
          | (rcases Res.bind_eq_ok.mp h with ⟨a, ha, hb⟩
             exact ihReqF _ _ _ _ _ (ihGsv _ _ _ _ _ hw ha) hb)
    · -- respFields
      intro env flds s r out hw h
      simp only [respFields] at h
      split at h <;> try split at h
      all_goals
        first
          | exact Res.noConfusion h
          | (cases h; exact hw)
          | exact ihRespF _ _ _ _ _ hw h.symm
          | exact ihRespF _ _ _ _ _ hw h
          | (rcases Res.bind_eq_ok.mp h.symm with ⟨a, ha, hb⟩
             first
               | exact ihRespF _ _ _ _ _ (ihGsv _ _ _ _ _ hw ha) hb
               | (split at hb
                  all_goals exact ihRespF _ _ _ _ _ (ihGsv _ _ _ _ _ hw ha) hb))
          | (rcases Res.bind_eq_ok.mp h with ⟨a, ha, hb⟩
             first
               | exact ihRespF _ _ _ _ _ (ihGsv _ _ _ _ _ hw ha) hb
               | (split at hb
                  all_goals exact ihRespF _ _ _ _ _ (ihGsv _ _ _ _ _ hw ha) hb))
    · -- getComponentByModel
      intro env t isReq r r' hw h
      simp only [getComponentByModel] at h
      split at h
      · cases h; exact hw
      · first
          | (rcases Res.bind_eq_ok.mp h.symm with ⟨a, ha, hb⟩
             cases hb
             refine WFReg_insert ?_ (title_setTitle _ _)
             first
               | (split at ha
                  · exact ihCompF _ _ _ _ _ _ hw ha
                  · (cases ha; exact hw))
               | (exact ihCompF _ _ _ _ _ _ hw ha)
               | (cases ha; exact hw))
          | (rcases Res.bind_eq_ok.mp h with ⟨a, ha, hb⟩
             cases hb
             refine WFReg_insert ?_ (title_setTitle _ _)
             first
               | (split at ha
                  · exact ihCompF _ _ _ _ _ _ hw ha
                  · (cases ha; exact hw))
               | (exact ihCompF _ _ _ _ _ _ hw ha)
               | (cases ha; exact hw))
    · -- compFields
      intro env isReq flds s r out hw h
      simp only [compFields] at h
      split at h
      · cases h; exact hw
      case _ fld rest =>
        split at h
        · -- skipped field
          first
            | exact ihCompF _ _ _ _ _ _ hw h.symm
            | exact ihCompF _ _ _ _ _ _ hw h
        · -- kind dispatch
          split at h
          · -- struct kind
            split at h
            · -- time.Time field
              rcases Res.bind_eq_ok.mp h with ⟨a, ha, hb⟩
              exact ihCompF _ _ _ _ _ _ (ihGsv _ _ _ _ _ hw ha) hb
            · -- nested struct field
              rcases Res.bind_eq_ok.mp h with ⟨a, ha, hb⟩
              have hwa : WFReg a := by
                split at ha
                · exact ihGcm _ _ _ _ _ hw ha
                · cases ha; exact hw
              exact ihCompF _ _ _ _ _ _ hwa hb
          · -- slice kind
            rcases Res.bind_eq_ok.mp h with ⟨a, ha, hb⟩
            have hwa := ihGsv _ _ _ _ _ hw ha
            split at hb
            · rcases Res.bind_eq_ok.mp hb with ⟨b, hb1, hb2⟩
              have hwb : WFReg b := by
                split at hb1
                · exact ihGcm _ _ _ _ _ hwa hb1
                · cases hb1; exact hwa
              exact ihCompF _ _ _ _ _ _ hwb hb2
            · exact ihCompF _ _ _ _ _ _ hwa hb
          · -- map kind
            rcases Res.bind_eq_ok.mp h with ⟨a, ha, hb⟩
            have hwa : WFReg a.2 := by
              split at ha
              · cases ha; exact hw
              · rcases Res.bind_eq_ok.mp ha with ⟨b, hb1, hb2⟩
                cases hb2
                split at hb1
                · exact ihGcm _ _ _ _ _ hw hb1
                · cases hb1; exact hw
              · cases ha; exact hw
            exact ihCompF _ _ _ _ _ _ hwa hb
          · -- interface kind
            first
              | exact ihCompF _ _ _ _ _ _ hw h.symm
              | exact ihCompF _ _ _ _ _ _ hw h
          · -- other kinds
            rcases Res.bind_eq_ok.mp h with ⟨a, ha, hb⟩
            exact ihCompF _ _ _ _ _ _ (ihGsv _ _ _ _ _ hw ha) hb
    · -- paramFields
      intro env flds acc r out hw h
      simp only [paramFields] at h
      split at h <;> try split at h
      all_goals
        first
          | exact Res.noConfusion h
          | (cases h; exact hw)
          | exact ihParF _ _ _ _ _ hw h.symm
          | exact ihParF _ _ _ _ _ hw h
          | (rcases Res.bind_eq_ok.mp h.symm with ⟨a, ha, hb⟩
             exact ihParF _ _ _ _ _ (ihGsv _ _ _ _ _ hw ha) hb)
          | (rcases Res.bind_eq_ok.mp h with ⟨a, ha, hb⟩
             exact ihParF _ _ _ _ _ (ihGsv _ _ _ _ _ hw ha) hb)

theorem checkSchemaExist_true_iff (n : String) (r : Registry) :
    checkSchemaExist n r = true ↔ ∃ p ∈ r, ∃ s, p.2.2 = some s ∧ s.title = n := by
  induction r with
  | nil => simp [checkSchemaExist]
  | cons e rest ih =>
    simp only [checkSchemaExist, List.any_cons, Bool.or_eq_true] at ih ⊢
    constructor
    · intro h
      rcases h with h1 | h1
      · cases he : e.2.2 with
        | none => rw [he] at h1; simp at h1
        | some s =>
          rw [he] at h1
          simp only [decide_eq_true_eq] at h1
          exact ⟨e, List.mem_cons_self e rest, s, he, h1⟩
      · rcases ih.mp h1 with ⟨p, hp, s, hs, ht⟩
        exact ⟨p, List.mem_cons_of_mem _ hp, s, hs, ht⟩
    · rintro ⟨p, hp, s, hs, ht⟩
      rcases List.mem_cons.mp hp with h1 | h1
      · subst h1
        left
        rw [hs]
        simp [ht]
      · exact Or.inr (ih.mpr ⟨p, h1, s, hs, ht⟩)

theorem lookupAssoc_mem {α : Type} {r : List (String × α)} {k : String} {v : α}
    (h : lookupAssoc r k = some v) : (k, v) ∈ r := by
  induction r with
  | nil => simp [lookupAssoc] at h
  | cons e rest ih =>
    simp only [lookupAssoc] at h
    by_cases hk : e.1 = k
    · rw [if_pos hk] at h
      injection h with h
      refine List.mem_cons.mpr (Or.inl ?_)
      rw [← hk, ← h]
    · rw [if_neg hk] at h
      exact List.mem_cons_of_mem _ (ih h)

theorem WF_exists_lookup {r : Registry} {n : String} (hw : WFReg r)
    (hex : ∃ p ∈ r, p.1 = n) :
    ∃ e, lookupAssoc r n = some e ∧ ∃ s, e.2 = some s ∧ s.title = n := by
  induction r with
  | nil => rcases hex with ⟨p, hp, _⟩; simp at hp
  | cons q rest ih =>
    by_cases hk : q.1 = n
    · rcases hw q (List.mem_cons_self q rest) with ⟨s, hs, ht⟩
      refine ⟨q.2, ?_, s, hs, hk ▸ ht⟩
      simp [lookupAssoc, hk]
    · rcases hex with ⟨p, hp, hpn⟩
      rcases List.mem_cons.mp hp with h1 | h1
      · exact absurd (h1 ▸ hpn) hk
      · rcases ih (fun p hp => hw p (List.mem_cons_of_mem _ hp)) ⟨p, h1, hpn⟩
          with ⟨e, he, s, hs, ht⟩
        exact ⟨e, by simp [lookupAssoc, hk, he], s, hs, ht⟩

/-! ### Concrete models used by the claims -/

/-- `type Node struct { Next *Node `json:"next"` }`: a struct with a
pointer to itself. -/
def envNode : Env :=
  [("Node", [{ name := "Next", type := .ptr (.named "Node"),
               tags := { json := some "next" } }])]

/-- The enumerable type with variants `{"A": 1, "B": 2}`. -/
def enumAB : EnumDef := ⟨"E", .int, [("A", .vInt 1), ("B", .vInt 2)]⟩

/-- The same enumerable type with its mapping listed in the other
order (Go map iteration order is unspecified). -/
def enumBA : EnumDef := ⟨"E", .int, [("B", .vInt 2), ("A", .vInt 1)]⟩

/-- A request model whose single field carries both a `query` and a
`header` annotation. -/
def envQH : Env :=
  [("M", [{ name := "F", type := .prim .int,
            tags := { query := some "q", header := some "h" } }])]

/-- A response model with one exported field bearing no tags at all. -/
def envC6 : Env := [("S", [{ name := "Code", type := .prim .int }])]

/-- A response model with a nested struct field and an enum field, and
the nested struct itself. -/
def envC8 : Env :=
  [("Outer", [{ name := "A", type := .named "Inner", tags := { json := some "a" } },
              { name := "E", type := .enum enumAB, tags := { json := some "e" } }]),
   ("Inner", [{ name := "X", type := .prim .int, tags := { json := some "x" } }])]

/-- The registry produced by synthesizing `Outer` once into a fresh
registry. -/
def C8reg : Registry :=
  (getComponentByModel envC8 20 (.named "Outer") false []).getD []

/-- A request model mixing a slice-of-struct field and a
map-with-struct-values field, and the element struct. -/
def envC8b : Env :=
  [("Box", [{ name := "Xs", type := .slice (.named "Item"),
              tags := { form := some "xs" } },
            { name := "Ms", type := .mapOf (.named "Item"),
              tags := { form := some "ms" } }]),
   ("Item", [{ name := "V", type := .prim .string, tags := { form := some "v" } }])]

/-- The registry produced by synthesizing `Box` once into a fresh
registry. -/
def C8regB : Registry :=
  (getComponentByModel envC8b 20 (.named "Box") true []).getD []

/-! ### Claim theorems -/

/-- **C5**: primitive classification: an 8-bit unsigned kind yields an
integer schema with minimum 0; a 64-bit signed kind yields an integer
schema with int64 format and no minimum; a 32-bit float kind yields a
number schema with format "float"; and each unsigned integer kind adds
an explicit minimum of 0 while its signed counterpart carries no
minimum — on both the kind-indexed classifier (`getBasicSchemaByType`)
and the value-based path (`getSchemaByValue`). -/
theorem C5_primitive_mapping :
    schemaFacet (getBasicSchemaByType .uint8) = some (some .integer, "", some 0) ∧
    schemaFacet (getBasicSchemaByType .int64) = some (some .integer, "int64", none) ∧
    schemaFacet (getBasicSchemaByType .float32) = some (some .number, "float", none) ∧
    schemaFacet (resSchema (getSchemaByValue [] 1 (.prim .uint8) true [])) =
      some (some .integer, "", some 0) ∧
    schemaFacet (resSchema (getSchemaByValue [] 1 (.prim .int64) true [])) =
      some (some .integer, "int64", none) ∧
    schemaFacet (resSchema (getSchemaByValue [] 1 (.prim .float32) true [])) =
      some (some .number, "float", none) ∧
    ((getBasicSchemaByType .int).map Schema.min = some none ∧
      (getBasicSchemaByType .uint).map Schema.min = some (some 0)) ∧
    ((getBasicSchemaByType .int8).map Schema.min = some none ∧
      (getBasicSchemaByType .uint8).map Schema.min = some (some 0)) ∧
    ((getBasicSchemaByType .int16).map Schema.min = some none ∧
      (getBasicSchemaByType .uint16).map Schema.min = some (some 0)) ∧
    ((getBasicSchemaByType .int32).map Schema.min = some none ∧
      (getBasicSchemaByType .uint32).map Schema.min = some (some 0)) ∧
    ((getBasicSchemaByType .int64).map Schema.min = some none ∧
      (getBasicSchemaByType .uint64).map Schema.min = some (some 0)) :=
  ⟨rfl, rfl, rfl, rfl, rfl, rfl, ⟨rfl, rfl⟩, ⟨rfl, rfl⟩, ⟨rfl, rfl⟩, ⟨rfl, rfl⟩, rfl, rfl⟩

/-- **C3**: for the enumerable type with mapping `{"A": 1, "B": 2}`
(in either iteration order), the enum path of `getSchemaByValue`
derives a schema whose enum value list equals `{1, 2}` as a set, and
the registered coercion accepts exactly the members of that value set,
rejecting (panicking on) everything else. -/
theorem C3_enum_round_trip :
    (∀ v : Val, v ∈ resEnumList (getSchemaByValue [] 5 (.enum enumAB) true []) ↔
      v = .vInt 1 ∨ v = .vInt 2) ∧
    (∀ v : Val, v ∈ resEnumList (getSchemaByValue [] 5 (.enum enumBA) true []) ↔
      v = .vInt 1 ∨ v = .vInt 2) ∧
    (∀ v : Val, (enumCoercion enumAB v).isOk = true ↔ (v = .vInt 1 ∨ v = .vInt 2)) ∧
    enumCoercion enumAB (.vInt 1) = .ok (.vInt 1) ∧
    (enumCoercion enumAB (.vInt 3)).isErr = true := by
  refine ⟨?_, ?_, ?_, rfl, rfl⟩
  · have h : resEnumList (getSchemaByValue [] 5 (.enum enumAB) true []) =
        [.vInt 1, .vInt 2] := rfl
    rw [h]
    intro v
    simp
  · have h : resEnumList (getSchemaByValue [] 5 (.enum enumBA) true []) =
        [.vInt 2, .vInt 1] := rfl
    rw [h]
    intro v
    simp
    tauto
  · intro v
    simp only [enumCoercion]
    by_cases hv : ([Val.vInt 1, Val.vInt 2] : List Val).contains v
    · have hm := hv
      simp only [List.elem_iff] at hm
      rw [show enumAB.variants.map Prod.snd = [Val.vInt 1, Val.vInt 2] from rfl, if_pos hv]
      simp [GetEnumVal, Res.isOk, enumAB]
      simpa using hm
    · have hm := hv
      simp only [List.elem_iff] at hm
      rw [show enumAB.variants.map Prod.snd = [Val.vInt 1, Val.vInt 2] from rfl, if_neg hv]
      simp [Res.isOk]
      simpa using hm

/-- **C2 counterexample**: the field of `envQH` carries both a `query`
and a `header` annotation, and the extractor assigns it to `header`
(the later check overwrites the earlier one), not to `query` as the
claim's first-priority rule states; it still emits exactly one
descriptor. -/
theorem C2_counterexample :
    paramLocsOf (getParametersByModel envQH 8 (.named "M") []) = ["header"] ∧
    paramLocsOf (getParametersByModel envQH 8 (.named "M") []) ≠ ["query"] := by
  refine ⟨rfl, by decide⟩

/-- **C2 amended**: binding locations are resolved with last-match
priority in the order query, path, header, cookie (each later
annotation overwrites the earlier choice), so a field carrying both a
query and a header annotation is assigned to header; a field carrying
all four is assigned to cookie; each annotated field still yields
exactly one descriptor, and a field with no location annotation
contributes no parameter. -/
theorem C2_amended_precedence :
    (∀ (env : Env) (g : Nat) (nm q h : String) (r : Registry),
      paramFields env (g+1+1)
          [⟨nm, .prim .int, true, { query := some q, header := some h }⟩] [] r =
        .ok ([{ locIn := "header", name := h, schema := some NewIntegerSchema }], r)) ∧
    (∀ (env : Env) (g : Nat) (nm q u h c : String) (r : Registry),
      paramFields env (g+1+1)
          [⟨nm, .prim .int, true,
            { query := some q, uri := some u, header := some h, cookie := some c }⟩] [] r =
        .ok ([{ locIn := "cookie", name := c, schema := some NewIntegerSchema }], r)) ∧
    (∀ (env : Env) (g : Nat) (nm : String) (r : Registry),
      paramFields env (g+1+1) [⟨nm, .prim .int, true, {}⟩] [] r = .ok ([], r)) := by
  refine ⟨?_, ?_, ?_⟩ <;>
    intros <;>
    simp [paramFields, getSchemaByValue, gsvPrimSchema, getBasicSchemaByType,
      Res.bind, isRequiredTags]

/-- **C4 counterexample**: for an unsupported kind such as a channel or
function kind, `getBasicSchemaByType` returns an absent (nil) schema
to its caller instead of failing fast as the claim states. -/
theorem C4_counterexample :
    getBasicSchemaByType .chan = none ∧ getBasicSchemaByType .func = none :=
  ⟨rfl, rfl⟩

/-- **C4 amended**: the enum-schema constructor `NewEnumSchema` does
fail fast (panics) on every unsupported kind, but the kind-indexed
classifier `getBasicSchemaByType` instead silently returns a nil
(absent) schema to its caller for every unsupported kind; both accept
exactly the supported integer, unsigned-integer, float, string and
boolean kinds. -/
theorem C4_amended :
    (∀ k : RKind, supportedKind k = false → (getBasicSchemaByType k).isSome = false) ∧
    (∀ k : RKind, supportedKind k = false → (NewEnumSchema "X" k).isErr = true) ∧
    (∀ k : RKind, supportedKind k = true →
      (getBasicSchemaByType k).isSome = true ∧ (NewEnumSchema "X" k).isOk = true) := by
  decide

/-- **C4 witness**: instantiation of the amended claim at the channel
and function kinds and at a supported kind. -/
theorem C4_witness :
    (getBasicSchemaByType .chan).isSome = false ∧
    (NewEnumSchema "X" .func).isErr = true ∧
    (getBasicSchemaByType .int).isSome = true :=
  ⟨C4_amended.1 .chan rfl, C4_amended.2.1 .func rfl, (C4_amended.2.2 .int rfl).1⟩

/-- **C6 counterexample**: synthesizing the response component for
`envC6` (one exported field `Code` with no json annotation) stores a
property under the raw Go field name `Code`, so the field is not
skipped in `getComponentByModel`'s outbound traversal. -/
theorem C6_counterexample :
    propNamesAt ((getComponentByModel envC6 10 (.named "S") false []).getD []) "S" =
      ["Code"] := rfl

/-- **C6 amended**: in `getResponseSchemaByModel` an exported field
whose json annotation is absent contributes no property (though its
schema is still derived for side effects); in `getComponentByModel`'s
outbound traversal every field participates — keyed by the json name
when present and by the raw Go field name otherwise. -/
theorem C6_amended :
    (∀ (env : Env) (g : Nat) (fld : Field) (s : Schema) (r : Registry),
      fld.exported = true → fld.tags.json = none →
      respFields env (g+1+1) [fld] s r =
        (getSchemaByValue env (g+1) fld.type false r).bind fun frr => .ok (s, frr.2.2)) ∧
    (∀ (env : Env) (g : Nat) (nm : String) (s : Schema) (r : Registry),
      compFields env false (g+1+1) [⟨nm, .prim .int, true, {}⟩] s r =
        .ok (s.setProps (insertAssoc s.props nm ("", some NewIntegerSchema)), r)) ∧
    (∀ (env : Env) (g : Nat) (nm j : String) (s : Schema) (r : Registry),
      compFields env false (g+1+1) [⟨nm, .prim .int, true, { json := some j }⟩] s r =
        .ok (s.setProps (insertAssoc s.props j ("", some NewIntegerSchema)), r)) := by
  refine ⟨?_, ?_, ?_⟩
  · intro env g fld s r hexp hjson
    simp only [respFields, hexp, hjson, if_true]
  · intro env g nm s r
    simp [compFields, getSchemaByValue, gsvPrimSchema, getBasicSchemaByType, Res.bind,
      isRequiredTags, kindOf, stripPtr1]
  · intro env g nm j s r
    simp [compFields, getSchemaByValue, gsvPrimSchema, getBasicSchemaByType, Res.bind,
      isRequiredTags, kindOf, stripPtr1]

/-- **C1**: synthesizing the self-referential struct `Node` (a field
`Next *Node`) never completes: for every fuel bound, and from every
registry in which no schema is titled `Node`, `getComponentByModel`
exhausts its fuel.  The pre-existence check runs before the recursive
descent, but the registry entry for the type under synthesis is only
inserted after all fields are processed, so the check never sees the
in-progress type and the recursion is unbounded — the walk does not
terminate, contradicting the claimed cycle safety. -/
theorem C1_cycle_nontermination :
    ∀ (fuel : Nat) (r : Registry), checkSchemaExist "Node" r = false →
      getComponentByModel envNode fuel (.named "Node") false r = .fuelOut := by
  intro fuel
  induction fuel using Nat.strong_induction_on with
  | _ fuel ih =>
    intro r h
    match fuel with
    | 0 => rfl
    | 1 => rfl
    | (f+2) =>
      have hrec := ih f (by omega) r h
      simp only [envNode] at hrec
      simp only [getComponentByModel, compFields, envNode, fieldsOf, lookupAssoc]
      simp [stripPtr1, kindOf, typeName, isRequiredTags, h, hrec, Res.bind]

/-- **C1 witness**: the synthesis of `Node` from a fresh registry
exhausts a fuel bound of 40. -/
theorem C1_witness :
    getComponentByModel envNode 40 (.named "Node") false [] = .fuelOut :=
  C1_cycle_nontermination 40 [] rfl

/-- **C7 counterexample**: two distinct instantiations of the same
generic container — over the types `a.X` and `b.X`, same-named types
from two different packages, whose reflected names are
`Container[a.X]` and `Container[b.X]` — produce the same title
`XContainer`, so distinct instantiations do not always get distinct
titles. -/
theorem C7_counterexample :
    removePackageName "Container[a.X]" = "XContainer" ∧
    removePackageName "Container[b.X]" = "XContainer" ∧
    "Container[a.X]" ≠ "Container[b.X]" :=
  ⟨rfl, rfl, by decide⟩

/-- **C7 amended**: the naming function is deterministic (it is a pure
function of the name); for a generic name `c[p.x]` (container `c`
containing no `[`, argument base name `x` containing no dot) the title
is the flattened token `x ++ c`, so two instantiations whose argument
base names differ get different titles (instantiations over same-named
types from different packages can still collide); and no package
qualifier (dot) remains in the title whenever the text before the
first `[` of the input name is dot-free. -/
theorem C7_amended :
    (∀ s t : String, s = t → removePackageName s = removePackageName t) ∧
    (∀ c p q x y : List Char, '.' ∉ x → '.' ∉ y → '[' ∉ c →
      removePackageNameL (c ++ '[' :: p ++ '.' :: x ++ [']']) = x ++ c ∧
      (x ≠ y →
        removePackageNameL (c ++ '[' :: p ++ '.' :: x ++ [']']) ≠
          removePackageNameL (c ++ '[' :: q ++ '.' :: y ++ [']']))) ∧
    (∀ l : List Char, '.' ∉ l.takeWhile (fun ch => ch != '[') →
      '.' ∉ removePackageNameL l) := by
  refine ⟨fun s t h => h ▸ rfl, ?_, ?_⟩
  · intro c p q x y hx hy hc
    refine ⟨removePackageNameL_generic c p x hx hc, fun hxy he => ?_⟩
    rw [removePackageNameL_generic c p x hx hc,
      removePackageNameL_generic c q y hy hc] at he
    exact hxy (List.append_cancel_right he)
  · intro l hl
    unfold removePackageNameL
    by_cases hb : l.getLast? = some ']'
    · rw [if_pos hb]
      intro hmem
      rcases List.mem_append.mp hmem with h1 | h1
      · have hne := splitOnChar_ne_nil '.' l
        have hpiece := splitOnChar_pieces l ((splitOnChar '.' l).getLastD [])
          (getLastD_mem _ [] hne)
        unfold trimSuffixRB at h1
        by_cases hd : ((splitOnChar '.' l).getLastD []).getLast? = some ']'
        · rw [if_pos hd] at h1
          exact hpiece (List.dropLast_subset _ h1)
        · rw [if_neg hd] at h1
          exact hpiece h1
      · rw [splitOnChar_headD] at h1
        exact hl h1
    · rw [if_neg hb]
      intro hmem
      have hne := splitOnChar_ne_nil '.' l
      exact splitOnChar_pieces l ((splitOnChar '.' l).getLastD [])
        (getLastD_mem _ [] hne) hmem

/-- **C7 witness**: the amended statement instantiated on the names
`Container[a.X]` and `Container[a.Y]`. -/
theorem C7_witness :
    removePackageNameL ("Container".toList ++ '[' :: "a".toList ++ '.' ::
        "X".toList ++ [']']) = "X".toList ++ "Container".toList ∧
    removePackageNameL ("Container".toList ++ '[' :: "a".toList ++ '.' ::
        "X".toList ++ [']']) ≠
      removePackageNameL ("Container".toList ++ '[' :: "a".toList ++ '.' ::
        "Y".toList ++ [']']) :=
  ⟨(C7_amended.2.1 "Container".toList "a".toList "a".toList "X".toList "Y".toList
      (by decide) (by decide) (by decide)).1,
    (C7_amended.2.1 "Container".toList "a".toList "a".toList "X".toList "Y".toList
      (by decide) (by decide) (by decide)).2 (by decide)⟩

/-- **C9**: path rewriting maps `/user/:id/post/:postId` to
`/user/{id}/post/{postId}`; in general a segment `/:name` with `name`
a nonempty alphanumeric run (ended by a non-alphanumeric character or
the end of the path) becomes `/{name}`, and characters that do not
start such a segment are copied unchanged. -/
theorem C9_fix_path :
    fixPath "/user/:id/post/:postId" = "/user/{id}/post/{postId}" ∧
    (∀ (g : Nat) (name rest : List Char), name ≠ [] →
      (∀ c ∈ name, isAlnum c = true) →
      (∀ c, rest.head? = some c → isAlnum c = false) →
      name.length + rest.length ≤ g →
      fixPathAux (g+1) ('/' :: ':' :: (name ++ rest)) =
        '/' :: '{' :: (name ++ '}' :: fixPathAux (g+1) rest)) ∧
    (∀ (g : Nat) (c : Char) (rest : List Char), c ≠ '/' → rest.length ≤ g →
      fixPathAux (g+1) (c :: rest) = c :: fixPathAux (g+1) rest) ∧
    (∀ (g : Nat) (c : Char) (rest : List Char), c ≠ ':' → rest.length + 1 ≤ g →
      fixPathAux (g+1) ('/' :: c :: rest) = '/' :: fixPathAux (g+1) (c :: rest)) := by
  refine ⟨rfl, ?_, ?_, ?_⟩
  · intro g name rest h1 h2 h3 hg
    have e1 : fixPathAux (g+1) ('/' :: ':' :: (name ++ rest)) =
        '/' :: '{' :: (name ++ '}' :: fixPathAux g rest) := by
      simp [fixPathAux, takeWhile_app h2 h3, dropWhile_app h2 h3, h1]
    rw [e1, fixPathAux_fuel g (g+1) rest (by omega) (by omega)]
  · intro g c rest hc hg
    have e1 : fixPathAux (g+1) (c :: rest) = c :: fixPathAux g rest := by
      simp [fixPathAux, hc]
    rw [e1, fixPathAux_fuel g (g+1) rest (by omega) (by omega)]
  · intro g c rest hc hg
    have e1 : fixPathAux (g+1) ('/' :: c :: rest) = '/' :: fixPathAux g (c :: rest) := by
      simp [fixPathAux, hc]
    rw [e1, fixPathAux_fuel g (g+1) (c :: rest) (by simp; omega) (by simp; omega)]

/-- **C9 witness**: the general segment rule instantiated on the
segment `/:id` followed by `/x`. -/
theorem C9_witness :
    fixPathAux (9+1) ('/' :: ':' :: (['i', 'd'] ++ ['/', 'x'])) =
      '/' :: '{' :: (['i', 'd'] ++ '}' :: fixPathAux (9+1) ['/', 'x']) :=
  C9_fix_path.2.1 9 ['i', 'd'] ['/', 'x'] (by decide) (by decide)
    (by
      intro c hc
      injection hc with h
      subst h
      rfl)
    (by decide)

/-- **C6 witness**: instantiation of the amended claim on a concrete
untagged exported field of integer type. -/
theorem C6_witness :
    respFields envC6 3 [{ name := "Code", type := .prim .int }] NewObjectSchema [] =
      (getSchemaByValue envC6 2 (.prim .int) false []).bind fun frr =>
        .ok (NewObjectSchema, frr.2.2) :=
  C6_amended.1 envC6 1 { name := "Code", type := .prim .int } NewObjectSchema [] rfl rfl

/-- **C10**: every entry the engine inserts into the component
registry — a struct component inserted by `getComponentByModel` or an
enum inserted by the enum path of `getSchemaByValue` — is stored under
a map key equal to the entry's schema title (the walk preserves the
key/title coherence invariant `WFReg` from any coherent registry), and
on a coherent registry the existence check that scans entries by title
agrees with lookup by key. -/
theorem C10_registry_key_title_coherence :
    (∀ (env : Env) (fuel : Nat) (t : GoType) (isReq : Bool) (r r' : Registry),
      WFReg r → getComponentByModel env fuel t isReq r = .ok r' → WFReg r') ∧
    (∀ (env : Env) (fuel : Nat) (t : GoType) (req : Bool) (r : Registry)
        (out : String × Schema × Registry),
      WFReg r → getSchemaByValue env fuel t req r = .ok out → WFReg out.2.2) ∧
    (∀ (r : Registry) (name : String), WFReg r →
      (checkSchemaExist name r = true ↔
        ∃ e, lookupAssoc r name = some e ∧ ∃ s, e.2 = some s ∧ s.title = name)) := by
  refine ⟨?_, ?_, ?_⟩
  · intro env fuel t isReq r r' hw h
    exact (walkerWF fuel).2.2.2.2.2.1 env t isReq r r' hw h
  · intro env fuel t req r out hw h
    exact (walkerWF fuel).1 env t req r out hw h
  · intro r name hw
    constructor
    · intro h
      rcases (checkSchemaExist_true_iff name r).mp h with ⟨p, hp, s, hs, ht⟩
      rcases hw p hp with ⟨s', hs', ht'⟩
      have hss : s = s' := by
        rw [hs] at hs'
        injection hs'
      exact WF_exists_lookup hw ⟨p, hp, by rw [← ht', ← hss, ht]⟩
    · rintro ⟨e, he, s, hs, ht⟩
      exact (checkSchemaExist_true_iff name r).mpr
        ⟨(name, e), lookupAssoc_mem he, s, hs, ht⟩

/-- **C10 witness**: the registry synthesized for `Outer` from a fresh
registry is key/title coherent. -/
theorem C10_witness : WFReg C8reg :=
  C10_registry_key_title_coherence.1 envC8 20 (.named "Outer") false [] C8reg
    (fun p hp => absurd hp (List.not_mem_nil p)) rfl

/-- **C8**: synthesizing the same model twice is idempotent — for the
representative response model `Outer` (nested struct plus enum) and the
representative request model `Box` (slice-of-struct plus
map-of-struct), a second synthesis from the registry produced by the
first returns that registry unchanged; and registry insertion under an
already-present key overwrites in place, preserving the key list and
its uniqueness, so titles remain unique keys. -/
theorem C8_idempotent :
    getComponentByModel envC8 20 (.named "Outer") false [] = .ok C8reg ∧
    getComponentByModel envC8 20 (.named "Outer") false C8reg = .ok C8reg ∧
    getComponentByModel envC8b 20 (.named "Box") true [] = .ok C8regB ∧
    getComponentByModel envC8b 20 (.named "Box") true C8regB = .ok C8regB ∧
    (∀ (r : Registry) (k : String) (v : SchemaRefM),
      lookupAssoc r k = some v → insertAssoc r k v = r) ∧
    (∀ (r : Registry) (k : String) (v : SchemaRefM),
      k ∈ r.map Prod.fst → (insertAssoc r k v).map Prod.fst = r.map Prod.fst) ∧
    (∀ (r : Registry) (k : String) (v : SchemaRefM),
      (r.map Prod.fst).Nodup → ((insertAssoc r k v).map Prod.fst).Nodup) ∧
    (C8reg.map Prod.fst).Nodup ∧ (C8regB.map Prod.fst).Nodup :=
  ⟨rfl, rfl, rfl, rfl,
    fun r k v h => insertAssoc_lookup_self r k v h,
    fun r k v h => insertAssoc_keys_of_mem r k v h,
    fun r k v h => insertAssoc_keys_nodup r k v h,
    by decide, by decide⟩

/-- **C8 witness**: the overwrite rules instantiated on a one-entry
registry. -/
theorem C8_witness :
    insertAssoc ([("T", ("", none))] : Registry) "T" ("", none) =
      [("T", ("", none))] ∧
    (insertAssoc ([("T", ("", none))] : Registry) "T"
        ("", some NewObjectSchema)).map Prod.fst =
      ([("T", ("", none))] : Registry).map Prod.fst ∧
    ((insertAssoc ([("T", ("", none))] : Registry) "Q" ("", none)).map
      Prod.fst).Nodup :=
  ⟨C8_idempotent.2.2.2.2.1 [("T", ("", none))] "T" ("", none) rfl,
    C8_idempotent.2.2.2.2.2.1 [("T", ("", none))] "T" ("", some NewObjectSchema)
      (by decide),
    C8_idempotent.2.2.2.2.2.2.1 [("T", ("", none))] "Q" ("", none) (by decide)⟩

end SwaggerGin
